import Mathlib

/-!
Verification of the reactive dependency-tracking core (Dep / Watcher /
scheduler / observer setter) against its natural-language specification.

The JavaScript source is shallowly embedded: each relevant routine from
`src/core/observer/dep.js`, `src/core/observer/watcher.js`, the scheduler
module and the observer module is translated into an executable Lean
definition over explicit state, and the spec's claims are settled as
theorems about those definitions.
-/

namespace Vue

/-! ### JavaScript values

A small model of the JS values the engine compares: `===` is modelled by
`strictEq`, where `NaN === NaN` is `false` (as in JS), and object values
are identified by reference id (so `strictEq` on objects is reference
equality).  `isObject(v)` is `v !== null && typeof v === 'object'`. -/

inductive JSVal : Type where
  | undef : JSVal
  | nullv : JSVal
  | nan : JSVal
  | num : Int → JSVal
  | str : String → JSVal
  | boolean : Bool → JSVal
  | obj : Nat → JSVal
  deriving DecidableEq, Repr

/-- JS strict equality `===`: `NaN` is unequal to everything, including
itself; all other values compare structurally (objects by reference id). -/
def strictEq : JSVal → JSVal → Bool
  | JSVal.nan, _ => false
  | _, JSVal.nan => false
  | a, b => a == b

/-- Embeds `isObject(v)`: `v !== null && typeof v === 'object'`.  Arrays and plain
objects are both `obj` in this model. -/
def isObject : JSVal → Bool
  | JSVal.obj _ => true
  | _ => false

theorem strictEq_refl_of_ne_nan (v : JSVal) (h : v ≠ JSVal.nan) :
    strictEq v v = true := by
  cases v <;> simp [strictEq] at h ⊢

/-! ### Watcher dependency bookkeeping

From `src/core/observer/watcher.js` and `src/core/observer/dep.js`.
Dep objects are identified by their `id : Nat`.  Only the bookkeeping of a
single fixed watcher is modelled; `subCount d` is the number of occurrences
of that watcher in dep `d`'s `subs` array (`dep.addSub(this)` pushes one
occurrence, `dep.removeSub(this)` removes one occurrence if present).
`depIds`/`newDepIds` are JS `Set`s of dep ids, modelled as duplicate-free
lists; `deps`/`newDeps` are the arrays of collected dep objects, modelled
by their id lists in push order. -/

structure WState : Type where
  depIds : List Nat
  deps : List Nat
  newDepIds : List Nat
  newDeps : List Nat
  subCount : Nat → Nat

/-- Embeds `Dep.addSub(sub)`: `this.subs.push(sub)` — one more occurrence of the
watcher in dep `d`'s subscriber array. -/
def addSub (s : WState) (d : Nat) : WState :=
  { s with subCount := fun x => if x = d then s.subCount d + 1 else s.subCount x }

/-- Embeds `Dep.removeSub(sub)`: `remove(this.subs, sub)` — removes the first
occurrence of the watcher if present (a no-op when absent, which the
truncated `Nat` subtraction reproduces). -/
def removeSub (s : WState) (d : Nat) : WState :=
  { s with subCount := fun x => if x = d then s.subCount d - 1 else s.subCount x }

/-- Embeds `Watcher.addDep(dep)`:
```
if (!this.newDepIds.has(id)) {
  this.newDepIds.add(id); this.newDeps.push(dep)
  if (!this.depIds.has(id)) dep.addSub(this)
}
``` -/
def addDep (s : WState) (d : Nat) : WState :=
  if d ∈ s.newDepIds then s
  else
    let s1 := { s with newDepIds := s.newDepIds ++ [d], newDeps := s.newDeps ++ [d] }
    if d ∈ s.depIds then s1 else addSub s1 d

/-- Embeds `Watcher.cleanupDeps()`: walk `deps` from the back, `removeSub` on every
dep whose id is not in `newDepIds`; then swap `newDepIds` into `depIds` and
`newDeps` into `deps`, clearing the `new` generation. -/
def cleanupDeps (s : WState) : WState :=
  let s1 := s.deps.reverse.foldl
    (fun acc d => if d ∈ s.newDepIds then acc else removeSub acc d) s
  { s1 with
    depIds := s.newDepIds
    newDepIds := []
    deps := s.newDeps
    newDeps := [] }

/-! ### `Watcher.get`

The full evaluation pass: `pushTarget(this)`; run the getter, which reads
some reactive properties — each read fires `dep.depend()`, i.e.
`Dep.target.addDep(dep)` — and then either returns a value or throws; the
`catch` reports a user watcher's error via `handleError` and rethrows a
non-user watcher's; the `finally` runs `popTarget()` and `cleanupDeps()`
in both cases.

The getter's behaviour is supplied as data: `touched` is the sequence of
dep ids whose `depend()` fired while this watcher was the target, and
`behavior` is `some v` when the getter then returns `v`, or `none` when it
then throws.  (`let value` starts as JS `undefined` and keeps it when the
assignment threw, which is what a caught user-watcher error returns.) -/

structure GetState : Type where
  w : WState
  stack : List Nat
  errors : Nat
  storedValue : JSVal

structure GetResult : Type where
  state : GetState
  /-- Holds `some v` when `get` returns `v` normally; `none` when the exception
  propagated to the caller. -/
  ret : Option JSVal

def watcherGet (s : GetState) (selfId : Nat) (touched : List Nat)
    (behavior : Option JSVal) (user : Bool) : GetResult :=
  let s1 : GetState := { s with stack := s.stack ++ [selfId] }
  let s2 : GetState := { s1 with w := touched.foldl addDep s1.w }
  let afterTry : GetState × Option JSVal × Bool :=
    match behavior with
    | some v => (s2, some v, false)
    | none =>
      if user then ({ s2 with errors := s2.errors + 1 }, some JSVal.undef, false)
      else (s2, none, true)
  let s3 := afterTry.1
  let s4 : GetState := { s3 with stack := s3.stack.dropLast, w := cleanupDeps s3.w }
  { state := s4, ret := if afterTry.2.2 then none else afterTry.2.1 }

/-! ### The dependency invariant

`DepInv` is the bookkeeping invariant maintained at every point between
individual `addDep` / `cleanupDeps` operations: the `deps` arrays track
their id sets, the id sets are duplicate-free, and the watcher sits in
exactly the subscriber lists of deps in `depIds ∪ newDepIds` — once each.
At a pass boundary `newDepIds = []`, so `subCount` is charged exactly by
the current dep set. -/

def DepInv (s : WState) : Prop :=
  s.deps = s.depIds ∧ s.newDeps = s.newDepIds ∧
  s.depIds.Nodup ∧ s.newDepIds.Nodup ∧
  ∀ d, s.subCount d = if d ∈ s.depIds ∨ d ∈ s.newDepIds then 1 else 0

theorem addDep_depInv (s : WState) (d : Nat) (h : DepInv s) : DepInv (addDep s d) := by
  obtain ⟨hd, hn, hnd, hnn, hc⟩ := h
  have hnodup : d ∉ s.newDepIds → (s.newDepIds ++ [d]).Nodup := fun hmem =>
    (List.nodup_append).2 ⟨hnn, List.nodup_singleton d,
      fun a ha hb => hmem ((List.mem_singleton.mp hb) ▸ ha)⟩
  unfold addDep
  by_cases hmem : d ∈ s.newDepIds
  · rw [if_pos hmem]
    exact ⟨hd, hn, hnd, hnn, hc⟩
  · rw [if_neg hmem]
    by_cases hcur : d ∈ s.depIds
    · rw [if_pos hcur]
      refine ⟨hd, by rw [hn], hnd, hnodup hmem, fun x => ?_⟩
      by_cases hx : x = d
      · subst hx
        rw [hc x]
        simp [hcur]
      · have hiff : (x ∈ s.depIds ∨ x ∈ s.newDepIds ++ [d]) ↔
            (x ∈ s.depIds ∨ x ∈ s.newDepIds) := by
          simp [List.mem_append, hx]
        show s.subCount x = _
        rw [if_congr hiff rfl rfl]
        exact hc x
    · rw [if_neg hcur]
      refine ⟨?_, ?_, ?_, ?_, fun x => ?_⟩
      · simpa [addSub] using hd
      · simp [addSub, hn]
      · simpa [addSub] using hnd
      · simpa [addSub] using hnodup hmem
      · simp only [addSub]
        by_cases hx : x = d
        · subst hx
          rw [if_pos rfl, hc x]
          simp [hcur, hmem]
        · rw [if_neg hx]
          have hiff : (x ∈ s.depIds ∨ x ∈ s.newDepIds ++ [d]) ↔
              (x ∈ s.depIds ∨ x ∈ s.newDepIds) := by
            simp [List.mem_append, hx]
          rw [if_congr hiff rfl rfl]
          exact hc x

theorem foldl_addDep_depInv (p : List Nat) (s : WState) (h : DepInv s) :
    DepInv (p.foldl addDep s) := by
  induction p generalizing s with
  | nil => exact h
  | cons a t ih => exact ih (addDep s a) (addDep_depInv s a h)

/-- Fact: `addDep` leaves the previous-generation fields untouched. -/
theorem addDep_preserves_old (s : WState) (d : Nat) :
    (addDep s d).depIds = s.depIds ∧ (addDep s d).deps = s.deps := by
  unfold addDep
  by_cases hmem : d ∈ s.newDepIds <;> by_cases hcur : d ∈ s.depIds <;>
    simp [hmem, hcur, addSub]

theorem foldl_addDep_preserves_old (p : List Nat) (s : WState) :
    (p.foldl addDep s).depIds = s.depIds ∧ (p.foldl addDep s).deps = s.deps := by
  induction p generalizing s with
  | nil => exact ⟨rfl, rfl⟩
  | cons a t ih =>
    obtain ⟨h1, h2⟩ := ih (addDep s a)
    obtain ⟨h3, h4⟩ := addDep_preserves_old s a
    exact ⟨h1.trans h3, h2.trans h4⟩

/-- Membership in `newDepIds` after a sequence of `addDep` calls is
membership before, or membership in the call list. -/
theorem foldl_addDep_newDepIds_mem (p : List Nat) (s : WState) (d : Nat) :
    d ∈ (p.foldl addDep s).newDepIds ↔ d ∈ s.newDepIds ∨ d ∈ p := by
  induction p generalizing s with
  | nil => simp
  | cons a t ih =>
    simp only [List.foldl_cons, ih (addDep s a), List.mem_cons]
    have hstep : d ∈ (addDep s a).newDepIds ↔ d ∈ s.newDepIds ∨ d = a := by
      unfold addDep
      by_cases hmem : a ∈ s.newDepIds
      · simp only [hmem, if_true]
        constructor
        · exact fun h => Or.inl h
        · rintro (h | rfl)
          · exact h
          · exact hmem
      · by_cases hcur : a ∈ s.depIds <;> simp [hmem, hcur, addSub]
    rw [hstep]
    tauto

/-! Behaviour of the removal fold inside `cleanupDeps` on a single dep's
subscriber multiplicity. -/

theorem foldRemove_subCount_not_mem (P : List Nat) (l : List Nat) (s : WState) (x : Nat)
    (hx : x ∉ l) :
    (l.foldl (fun acc d => if d ∈ P then acc else removeSub acc d) s).subCount x
      = s.subCount x := by
  induction l generalizing s with
  | nil => rfl
  | cons a t ih =>
    simp only [List.mem_cons, not_or] at hx
    obtain ⟨hxa, hxt⟩ := hx
    simp only [List.foldl_cons]
    rw [ih _ hxt]
    by_cases hp : a ∈ P
    · rw [if_pos hp]
    · rw [if_neg hp]
      show (if x = a then _ else s.subCount x) = s.subCount x
      rw [if_neg hxa]

theorem foldRemove_subCount_inP (P : List Nat) (l : List Nat) (s : WState) (x : Nat)
    (hp : x ∈ P) :
    (l.foldl (fun acc d => if d ∈ P then acc else removeSub acc d) s).subCount x
      = s.subCount x := by
  induction l generalizing s with
  | nil => rfl
  | cons a t ih =>
    simp only [List.foldl_cons]
    rw [ih]
    by_cases hap : a ∈ P
    · rw [if_pos hap]
    · rw [if_neg hap]
      by_cases hxa : x = a
      · exact absurd (hxa ▸ hp) hap
      · show (if x = a then _ else s.subCount x) = s.subCount x
        rw [if_neg hxa]

theorem foldRemove_subCount_mem (P : List Nat) (l : List Nat) (s : WState) (x : Nat)
    (hnd : l.Nodup) (hx : x ∈ l) (hp : x ∉ P) :
    (l.foldl (fun acc d => if d ∈ P then acc else removeSub acc d) s).subCount x
      = s.subCount x - 1 := by
  induction l generalizing s with
  | nil => exact absurd hx (List.not_mem_nil x)
  | cons a t ih =>
    simp only [List.foldl_cons]
    rcases List.mem_cons.mp hx with hxa | hxt
    · subst hxa
      have hxt : x ∉ t := (List.nodup_cons.mp hnd).1
      rw [foldRemove_subCount_not_mem P t _ x hxt, if_neg hp]
      show (if x = x then s.subCount x - 1 else _) = s.subCount x - 1
      rw [if_pos rfl]
    · have hstep : ∀ s1 : WState,
          ((if a ∈ P then s1 else removeSub s1 a).subCount x) = s1.subCount x := by
        intro s1
        by_cases hap : a ∈ P
        · rw [if_pos hap]
        · rw [if_neg hap]
          by_cases hxa : x = a
          · subst hxa
            exact absurd ((List.nodup_cons.mp hnd).1 hxt) (fun h => h)
          · show (if x = a then _ else s1.subCount x) = s1.subCount x
            rw [if_neg hxa]
      calc (t.foldl (fun acc d => if d ∈ P then acc else removeSub acc d)
              (if a ∈ P then s else removeSub s a)).subCount x
          = (if a ∈ P then s else removeSub s a).subCount x - 1 :=
            ih _ (List.nodup_cons.mp hnd).2 hxt
        _ = s.subCount x - 1 := by rw [hstep s]

theorem cleanupDeps_depIds (s : WState) : (cleanupDeps s).depIds = s.newDepIds := rfl

theorem cleanupDeps_newDepIds (s : WState) : (cleanupDeps s).newDepIds = [] := rfl

theorem cleanupDeps_newDeps (s : WState) : (cleanupDeps s).newDeps = [] := rfl

theorem cleanupDeps_depInv (s : WState) (h : DepInv s) : DepInv (cleanupDeps s) := by
  obtain ⟨hd, hn, hnd, hnn, hc⟩ := h
  refine ⟨hn, rfl, hnn, List.nodup_nil, fun x => ?_⟩
  show (s.deps.reverse.foldl
      (fun acc d => if d ∈ s.newDepIds then acc else removeSub acc d) s).subCount x = _
  by_cases hp : x ∈ s.newDepIds
  · rw [foldRemove_subCount_inP _ _ _ _ hp, hc x]
    simp [cleanupDeps_depIds, cleanupDeps_newDepIds, hp]
  · by_cases hl : x ∈ s.deps.reverse
    · rw [foldRemove_subCount_mem _ _ _ _ (by simpa using hd ▸ hnd) hl hp, hc x]
      have hxdep : x ∈ s.depIds := hd ▸ List.mem_reverse.mp hl
      simp [cleanupDeps_depIds, cleanupDeps_newDepIds, hxdep, hp]
    · rw [foldRemove_subCount_not_mem _ _ _ _ hl, hc x]
      have hxdep : x ∉ s.depIds := fun hmem =>
        hl (List.mem_reverse.mpr (hd ▸ hmem))
      simp [cleanupDeps_depIds, cleanupDeps_newDepIds, hxdep, hp]

/-- The dep-state component of a full `Watcher.get` pass: the getter touches
`touched`, then `cleanupDeps` reconciles — and this holds whether or not the
getter threw, because reconciliation sits in the `finally`. -/
theorem watcherGet_wstate (s : GetState) (selfId : Nat) (touched : List Nat)
    (behavior : Option JSVal) (user : Bool) :
    (watcherGet s selfId touched behavior user).state.w
      = cleanupDeps (touched.foldl addDep s.w) := by
  unfold watcherGet
  cases behavior with
  | some v => rfl
  | none => cases user <;> rfl

/-! ### Scheduler

From the scheduler module (`queueWatcher`, `flushSchedulerQueue`,
`MAX_UPDATE_COUNT`).  Watchers are identified by their `id : Nat`.
`has` is the pending-id map (`has[id] === true` ↔ membership), `circular`
the dev-mode circular-run counters (`circular[id] || 0` is the function's
value), `index` the flush cursor. -/

def MAX_UPDATE_COUNT : Nat := 100

structure Sched : Type where
  queue : List Nat
  has : List Nat
  circular : Nat → Nat
  index : Nat
  flushing : Bool
  waiting : Bool
  warned : Bool

/-- The backward scan of `queueWatcher`'s mid-flush branch:
```
let i = queue.length - 1
while (i > index && queue[i].id > watcher.id) i--
queue.splice(i + 1, 0, watcher)
```
`splicePos queue index id k` is the final `i + 1` when the scan starts at
`i = k - 1`; the splice position is `splicePos queue index id queue.length`. -/
def splicePos (queue : List Nat) (index : Nat) (id : Nat) : Nat → Nat
  | 0 => 0
  | k + 1 =>
    if k > index ∧ queue.getD k 0 > id then splicePos queue index id k else k + 1

/-- The insertion rule as the spec sentence words it: scan backward from the
end to the first position whose id is ≤ the new watcher's id (with no stop
at the flush cursor) and splice immediately after it. -/
def claimSplicePos (queue : List Nat) (id : Nat) : Nat → Nat
  | 0 => 0
  | k + 1 =>
    if queue.getD k 0 > id then claimSplicePos queue id k else k + 1

/-- Embeds `queueWatcher(watcher)`:
```
if (has[id] == null) {
  has[id] = true
  if (!flushing) queue.push(watcher)
  else { ...backward scan + splice... }
  if (!waiting) { waiting = true; nextTick(flushSchedulerQueue) }
}
```
(The `nextTick` request itself is outside this state model; `waiting`
records its dedup flag.) -/
def queueWatcher (s : Sched) (id : Nat) : Sched :=
  if id ∈ s.has then s
  else
    let s1 := { s with has := id :: s.has }
    let s2 :=
      if s1.flushing = false then { s1 with queue := s1.queue ++ [id] }
      else { s1 with
        queue := s1.queue.insertIdx (splicePos s1.queue s1.index id s1.queue.length) id }
    if s2.waiting = false then { s2 with waiting := true } else s2

/-! The iteration of `flushSchedulerQueue`:
```
for (index = 0; index < queue.length; index++) {
  watcher = queue[index]
  if (watcher.before) watcher.before()
  id = watcher.id
  has[id] = null
  watcher.run()
  if (dev && has[id] != null) {
    circular[id] = (circular[id] || 0) + 1
    if (circular[id] > MAX_UPDATE_COUNT) { warn(...); break }
  }
}
```
Each `watcher.run()`'s observable effect on the scheduler is the sequence
of `queueWatcher` calls it triggers; the `tape` supplies that sequence for
each successive iteration.  `warn` sets the `warned` diagnostic flag and
does not throw.  `fuel` bounds the iteration count (the JS loop can run
forever; every theorem states what happens within the supplied fuel).
`flushIter` is one execution of the loop body at the current cursor; its
second component is `true` when the circular-update breaker hit `break`. -/
/-- Embeds `watcher = queue[index]`, the watcher the cursor currently points at. -/
def flushIterTarget (s : Sched) : Nat := s.queue.getD s.index 0

/-- The scheduler state right after `has[id] = null; watcher.run()`:
the pending flag cleared, then the run's `queueWatcher` calls applied. -/
def flushIterRan (eff : List Nat) (s : Sched) : Sched :=
  eff.foldl queueWatcher { s with has := s.has.erase (flushIterTarget s) }

/-- The dev-mode circular-counter bump `circular[id] = (circular[id] || 0) + 1`. -/
def bumpCircular (s : Sched) (w : Nat) : Sched :=
  { s with circular := fun x => if x = w then s.circular w + 1 else s.circular x }

def flushIter (dev : Bool) (eff : List Nat) (s : Sched) : Sched × Bool :=
  if dev = true ∧ flushIterTarget s ∈ (flushIterRan eff s).has then
    if (flushIterRan eff s).circular (flushIterTarget s) + 1 > MAX_UPDATE_COUNT then
      ({ bumpCircular (flushIterRan eff s) (flushIterTarget s) with warned := true }, true)
    else (bumpCircular (flushIterRan eff s) (flushIterTarget s), false)
  else (flushIterRan eff s, false)

def flushLoop (dev : Bool) : Nat → List (List Nat) → Sched → Sched
  | 0, _, s => s
  | fuel + 1, tape, s =>
    if s.index < s.queue.length then
      if (flushIter dev (tape.headD []) s).2 then (flushIter dev (tape.headD []) s).1
      else flushLoop dev fuel tape.tail
        { (flushIter dev (tape.headD []) s).1 with
          index := (flushIter dev (tape.headD []) s).1.index + 1 }
    else s

/-! Properties of the backward scan. -/

theorem splicePos_le (q : List Nat) (index id : Nat) : ∀ k, splicePos q index id k ≤ k := by
  intro k
  induction k with
  | zero => exact Nat.le_refl 0
  | succ n ih =>
    unfold splicePos
    by_cases h : n > index ∧ q.getD n 0 > id
    · rw [if_pos h]
      exact Nat.le_trans ih (Nat.le_succ n)
    · rw [if_neg h]

theorem splicePos_ge (q : List Nat) (index id : Nat) :
    ∀ k, min k (index + 1) ≤ splicePos q index id k := by
  intro k
  induction k with
  | zero => simp [splicePos]
  | succ n ih =>
    unfold splicePos
    by_cases h : n > index ∧ q.getD n 0 > id
    · rw [if_pos h]
      have : min n (index + 1) = index + 1 := Nat.min_eq_right h.1
      omega
    · rw [if_neg h]
      omega

/-- Every element at or after the final splice position (within the scanned
range) has id strictly greater than the inserted id. -/
theorem splicePos_gt_after (q : List Nat) (index id : Nat) :
    ∀ k j, splicePos q index id k ≤ j → j < k → q.getD j 0 > id := by
  intro k
  induction k with
  | zero => omega
  | succ n ih =>
    intro j hj hjk
    unfold splicePos at hj
    by_cases h : n > index ∧ q.getD n 0 > id
    · rw [if_pos h] at hj
      by_cases hjn : j = n
      · exact hjn ▸ h.2
      · exact ih j hj (by omega)
    · rw [if_neg h] at hj
      omega

/-- When the scan stopped strictly above the cursor, it stopped because the
element just before the splice position has id ≤ the inserted id. -/
theorem splicePos_stop_le (q : List Nat) (index id : Nat) :
    ∀ k, index + 1 < splicePos q index id k →
      q.getD (splicePos q index id k - 1) 0 ≤ id := by
  intro k
  induction k with
  | zero => simp [splicePos]
  | succ n ih =>
    intro hgt
    unfold splicePos at hgt ⊢
    by_cases h : n > index ∧ q.getD n 0 > id
    · rw [if_pos h] at hgt ⊢
      exact ih hgt
    · rw [if_neg h] at hgt ⊢
      have hn : n > index := by omega
      have : ¬ q.getD n 0 > id := fun hq => h ⟨hn, hq⟩
      simpa using this

theorem getD_insertIdx (a : Nat) : ∀ (p : Nat) (l : List Nat), p ≤ l.length →
    ∀ (j : Nat), (l.insertIdx p a).getD j 0 =
      if j < p then l.getD j 0 else if j = p then a else l.getD (j - 1) 0 := by
  intro p
  induction p with
  | zero =>
    intro l _ j
    cases j with
    | zero => simp [List.insertIdx_zero]
    | succ n => simp [List.insertIdx_zero]
  | succ p ih =>
    intro l hp j
    cases l with
    | nil => simp at hp
    | cons x xs =>
      rw [List.insertIdx_succ_cons]
      cases j with
      | zero => simp
      | succ n =>
        rw [List.getD_cons_succ, ih xs (by simpa using hp) n]
        by_cases h1 : n < p
        · have e1 : n + 1 < p + 1 := by omega
          rw [if_pos h1, if_pos e1, List.getD_cons_succ]
        · have e1 : ¬ (n + 1 < p + 1) := by omega
          rw [if_neg h1, if_neg e1]
          by_cases h2 : n = p
          · have e2 : n + 1 = p + 1 := by omega
            rw [if_pos h2, if_pos e2]
          · have e2 : ¬ (n + 1 = p + 1) := by omega
            rw [if_neg h2, if_neg e2]
            obtain ⟨m, rfl⟩ : ∃ m, n = m + 1 := ⟨n - 1, by omega⟩
            simp [List.getD_cons_succ]

/-- The not-yet-run part of the queue (positions from `m` on) is ascending
by watcher id. -/
def SortedFrom (l : List Nat) (m : Nat) : Prop :=
  ∀ i j, m ≤ i → i < j → j < l.length → l.getD i 0 ≤ l.getD j 0

theorem insert_midflush_sorted (q : List Nat) (index id : Nat)
    (hidx : index < q.length) (hs : SortedFrom q (index + 1)) :
    SortedFrom (q.insertIdx (splicePos q index id q.length) id) (index + 1) := by
  have hp2 : splicePos q index id q.length ≤ q.length := splicePos_le q index id q.length
  have hp1 : index + 1 ≤ splicePos q index id q.length := by
    have hge := splicePos_ge q index id q.length
    have hmin : min q.length (index + 1) = index + 1 := Nat.min_eq_right (by omega)
    omega
  intro i j hi hij hj
  rw [List.length_insertIdx _ _ hp2] at hj
  rw [getD_insertIdx id _ q hp2 i, getD_insertIdx id _ q hp2 j]
  set p := splicePos q index id q.length with hpdef
  by_cases hip : i < p
  · rw [if_pos hip]
    by_cases hjp : j < p
    · rw [if_pos hjp]
      exact hs i j hi hij (by omega)
    · rw [if_neg hjp]
      by_cases hjep : j = p
      · rw [if_pos hjep]
        have hstop : q.getD (p - 1) 0 ≤ id := by
          have : index + 1 < p := by omega
          exact splicePos_stop_le q index id q.length this
        by_cases hie : i = p - 1
        · exact hie ▸ hstop
        · exact Nat.le_trans (hs i (p - 1) hi (by omega) (by omega)) hstop
      · rw [if_neg hjep]
        exact hs i (j - 1) hi (by omega) (by omega)
  · rw [if_neg hip]
    by_cases hie : i = p
    · rw [if_pos hie]
      have hjp : ¬ j < p := by omega
      have hjep : j ≠ p := by omega
      rw [if_neg hjp, if_neg hjep]
      have := splicePos_gt_after q index id q.length (j - 1) (by omega) (by omega)
      omega
    · rw [if_neg hie]
      have hjp : ¬ j < p := by omega
      have hjep : j ≠ p := by omega
      rw [if_neg hjp, if_neg hjep]
      exact hs (i - 1) (j - 1) (by omega) (by omega) (by omega)

/-! ### `Watcher.run`

```
run () {
  if (this.active) {
    const value = this.get()
    if (value !== this.value || isObject(value) || this.deep) {
      const oldValue = this.value
      this.value = value
      ...invoke this.cb with (value, oldValue)...
    }
  }
}
```
The re-evaluation result `value = this.get()` is supplied as an argument.
Whether the callback goes through `invokeWithErrorHandling` (user watcher)
or a direct call only affects callback-error reporting, not whether or with
which arguments it is invoked, so the `user` flag is not needed here. -/

structure RunState : Type where
  active : Bool
  deep : Bool
  value : JSVal
  deriving DecidableEq

structure RunResult : Type where
  state : RunState
  /-- Holds `some (newValue, oldValue)` when the result callback was invoked. -/
  cb : Option (JSVal × JSVal)
  deriving DecidableEq

def watcherRun (s : RunState) (value : JSVal) : RunResult :=
  if s.active then
    if !strictEq value s.value || isObject value || s.deep then
      ⟨{ s with value := value }, some (value, s.value)⟩
    else ⟨s, none⟩
  else ⟨s, none⟩

/-- The firing condition as the spec claim words it: new value differs from
old by strict inequality *with NaN self-inequality treated as equal*, or is
an object, or the watcher is deep. -/
def claimRunFires (s : RunState) (value : JSVal) : Bool :=
  (!strictEq value s.value && !(value == JSVal.nan && s.value == JSVal.nan))
    || isObject value || s.deep

/-! ### `defineReactive`'s setter

```
set: function reactiveSetter (newVal) {
  const value = getter ? getter.call(obj) : val
  if (newVal === value || (newVal !== newVal && value !== value)) return
  if (dev && customSetter) customSetter()
  if (getter && !setter) return
  if (setter) setter.call(obj, newVal) else val = newVal
  childOb = !shallow && observe(newVal)
  dep.notify()
}
```
`hasGetter`/`hasSetter` record whether the original property descriptor had
`get`/`set`; when it had a getter, the current read value is the getter's
result, supplied as `getterVal`.  `customSetter` is a dev-only warning hook
with no effect on this state.  `observeCalled` records whether
`observe(newVal)` ran (observe itself wraps only plain objects/arrays). -/

structure PropState : Type where
  val : JSVal
  hasGetter : Bool
  hasSetter : Bool
  shallow : Bool
  deriving DecidableEq

structure SetResult : Type where
  state : PropState
  notified : Bool
  observeCalled : Bool
  calledSetter : Bool
  deriving DecidableEq

/-- The setter's no-change guard, verbatim:
`newVal === value || (newVal !== newVal && value !== value)`. -/
def setterNoChange (newVal value : JSVal) : Bool :=
  strictEq newVal value || (!strictEq newVal newVal && !strictEq value value)

def reactiveSetter (s : PropState) (getterVal newVal : JSVal) : SetResult :=
  let value := if s.hasGetter then getterVal else s.val
  if setterNoChange newVal value then
    ⟨s, false, false, false⟩
  else if s.hasGetter && !s.hasSetter then ⟨s, false, false, false⟩
  else if s.hasSetter then ⟨s, true, !s.shallow, true⟩
  else ⟨{ s with val := newVal }, true, !s.shallow, false⟩

/-! ### `Dep.notify`

```
notify () {
  const subs = this.subs.slice()
  if (dev && !config.async) subs.sort((a, b) => a.id - b.id)
  for (let i = 0, l = subs.length; i < l; i++) subs[i].update()
}
```
Subscribers are identified by watcher id.  `Array.prototype.sort` with the
comparator `a.id - b.id` is a stable ascending sort by id, modelled by
insertion sort.  `effect w cur` is what subscriber `w`'s `update()` does to
the live subscriber list `cur` (it may subscribe/unsubscribe watchers);
`notifyRun` returns the final live list and the order in which `update()`
was invoked. -/

def notifySnapshot (dev async : Bool) (subs : List Nat) : List Nat :=
  if dev && !async then List.insertionSort (· ≤ ·) subs else subs

def notifyRun (dev async : Bool) (subs : List Nat)
    (effect : Nat → List Nat → List Nat) : List Nat × List Nat :=
  (notifySnapshot dev async subs).foldl
    (fun acc w => (effect w acc.1, acc.2 ++ [w])) (subs, [])

/-! ### `del`

```
export function del (target, key) {
  if (Array.isArray(target) && isValidArrayIndex(key)) { target.splice(key, 1); return }
  const ob = target.__ob__
  if (target._isVue || (ob && ob.vmCount)) { dev && warn(...); return }
  if (!hasOwn(target, key)) return
  delete target[key]
  if (!ob) return
  ob.dep.notify()
}
```
Only non-array targets are modelled (the array branch delegates to the
intercepted `splice` and never reaches `ob.dep.notify()` here); an object's
own enumerable properties are a key-value list with distinct keys. -/

structure DelTarget : Type where
  fields : List (String × JSVal)
  isVue : Bool
  hasOb : Bool
  vmCount : Nat
  deriving DecidableEq

structure DelResult : Type where
  fields : List (String × JSVal)
  deleted : Bool
  notified : Bool
  deriving DecidableEq

def hasOwn (t : DelTarget) (key : String) : Bool :=
  t.fields.any (fun p => p.1 == key)

def del (t : DelTarget) (key : String) : DelResult :=
  if t.isVue || (t.hasOb && t.vmCount != 0) then ⟨t.fields, false, false⟩
  else if !hasOwn t key then ⟨t.fields, false, false⟩
  else
    let fields := t.fields.filter (fun p => !(p.1 == key))
    if !t.hasOb then ⟨fields, true, false⟩
    else ⟨fields, true, true⟩

/-! ### Interleavings of dependency operations (for the uniqueness claim) -/

/-- One dependency-bookkeeping event of the fixed watcher: a reactive read
while it is the evaluation target (`dep.depend()` → `addDep`), or the
reconciliation at the end of one of its evaluation passes. -/
inductive DepOp : Type where
  | read (d : Nat) : DepOp
  | cleanup : DepOp
  deriving DecidableEq

def applyDepOp (s : WState) : DepOp → WState
  | DepOp.read d => addDep s d
  | DepOp.cleanup => cleanupDeps s

def applyDepOps (s : WState) (ops : List DepOp) : WState :=
  ops.foldl applyDepOp s

theorem applyDepOps_depInv (ops : List DepOp) (s : WState) (h : DepInv s) :
    DepInv (applyDepOps s ops) := by
  induction ops generalizing s with
  | nil => exact h
  | cons op t ih =>
    cases op with
    | read d => exact ih (addDep s d) (addDep_depInv s d h)
    | cleanup => exact ih (cleanupDeps s) (cleanupDeps_depInv s h)

theorem addDep_subCount_self (s : WState) (d : Nat) :
    (addDep s d).subCount d =
      if d ∈ s.newDepIds ∨ d ∈ s.depIds then s.subCount d else s.subCount d + 1 := by
  unfold addDep
  by_cases h1 : d ∈ s.newDepIds
  · rw [if_pos h1, if_pos (Or.inl h1)]
  · rw [if_neg h1]
    by_cases h2 : d ∈ s.depIds
    · rw [if_pos h2, if_pos (Or.inr h2)]
    · rw [if_neg h2, if_neg (fun h => h.elim h1 h2)]
      show (if d = d then s.subCount d + 1 else s.subCount d) = s.subCount d + 1
      rw [if_pos rfl]

/-- Claim C1 — after any evaluation pass (a call to `get`), the watcher's
current dep set (`deps`/`depIds`) equals exactly the set of deps whose
`depend()` fired while it was the evaluation target: every previously
current dep not touched this pass has the watcher removed from its
subscriber list, every touched dep retains it exactly once, and the newly
collected sets are empty afterwards. -/
theorem watcher_pass_deps_exact (s : GetState) (selfId : Nat) (touched : List Nat)
    (behavior : Option JSVal) (user : Bool) (t : WState)
    (ht : t = (watcherGet s selfId touched behavior user).state.w)
    (hinv : DepInv s.w) (hstart : s.w.newDepIds = []) :
    (∀ d, d ∈ t.depIds ↔ d ∈ touched) ∧ t.newDepIds = [] ∧ t.newDeps = [] ∧
    (∀ d, t.subCount d = if d ∈ touched then 1 else 0) := by
  have ht2 : t = cleanupDeps (touched.foldl addDep s.w) :=
    ht.trans (watcherGet_wstate s selfId touched behavior user)
  subst ht2
  have hmem : ∀ d, d ∈ (cleanupDeps (touched.foldl addDep s.w)).depIds ↔ d ∈ touched := by
    intro d
    rw [cleanupDeps_depIds, foldl_addDep_newDepIds_mem, hstart]
    simp
  obtain ⟨_, _, _, _, hc⟩ :=
    cleanupDeps_depInv _ (foldl_addDep_depInv touched s.w hinv)
  refine ⟨hmem, cleanupDeps_newDepIds _, cleanupDeps_newDeps _, fun d => ?_⟩
  rw [hc d]
  have hiff : (d ∈ (cleanupDeps (touched.foldl addDep s.w)).depIds ∨
      d ∈ (cleanupDeps (touched.foldl addDep s.w)).newDepIds) ↔ d ∈ touched := by
    rw [cleanupDeps_newDepIds]
    simp [hmem d]
  rw [if_congr hiff rfl rfl]

/-- Witness for C1 at a concrete pass: a fresh watcher whose getter reads
deps 0, 1 and then 0 again. -/
theorem watcher_pass_deps_exact_witness :
    (0 ∈ (watcherGet ⟨⟨[], [], [], [], fun _ => 0⟩, [], 0, JSVal.undef⟩ 7 [0, 1, 0]
        (some (JSVal.num 5)) false).state.w.depIds) ∧
    (2 ∉ (watcherGet ⟨⟨[], [], [], [], fun _ => 0⟩, [], 0, JSVal.undef⟩ 7 [0, 1, 0]
        (some (JSVal.num 5)) false).state.w.depIds) ∧
    (watcherGet ⟨⟨[], [], [], [], fun _ => 0⟩, [], 0, JSVal.undef⟩ 7 [0, 1, 0]
        (some (JSVal.num 5)) false).state.w.subCount 1 = 1 ∧
    (watcherGet ⟨⟨[], [], [], [], fun _ => 0⟩, [], 0, JSVal.undef⟩ 7 [0, 1, 0]
        (some (JSVal.num 5)) false).state.w.subCount 2 = 0 := by
  have h := watcher_pass_deps_exact ⟨⟨[], [], [], [], fun _ => 0⟩, [], 0, JSVal.undef⟩
    7 [0, 1, 0] (some (JSVal.num 5)) false _ rfl
    ⟨rfl, rfl, List.nodup_nil, List.nodup_nil, fun d => by simp⟩ rfl
  refine ⟨(h.1 0).mpr (by decide), fun hx => by simpa using (h.1 2).mp hx, ?_, ?_⟩
  · rw [h.2.2.2 1]
    decide
  · rw [h.2.2.2 2]
    decide

/-- Claim C2 — a watcher appears at most once in any dep's subscriber list
at every moment, under any interleaving of reads and pass reconciliations;
and `addDep` grows a dep's subscriber list (calls `addSub`) exactly when
the dep's id is in neither the newly-collected nor the current id set. -/
theorem dep_subscriber_at_most_once (s : WState) (hinv : DepInv s) (ops : List DepOp) :
    (∀ d, (applyDepOps s ops).subCount d ≤ 1) ∧
    (∀ d, (addDep s d).subCount d =
      if d ∈ s.newDepIds ∨ d ∈ s.depIds then s.subCount d else s.subCount d + 1) := by
  refine ⟨fun d => ?_, fun d => addDep_subCount_self s d⟩
  obtain ⟨_, _, _, _, hc⟩ := applyDepOps_depInv ops s hinv
  rw [hc d]
  by_cases h : d ∈ (applyDepOps s ops).depIds ∨ d ∈ (applyDepOps s ops).newDepIds
  · rw [if_pos h]
  · rw [if_neg h]
    exact Nat.zero_le 1

/-- Witness for C2: repeated reads of dep 0 across two passes never push a
second subscription. -/
theorem dep_subscriber_at_most_once_witness :
    (applyDepOps ⟨[], [], [], [], fun _ => 0⟩
      [DepOp.read 0, DepOp.read 0, DepOp.cleanup, DepOp.read 0]).subCount 0 ≤ 1 ∧
    (addDep ⟨[0], [0], [], [], fun x => if x = 0 then 1 else 0⟩ 0).subCount 0 =
      (fun x : Nat => if x = 0 then 1 else 0) 0 := by
  have h := dep_subscriber_at_most_once ⟨[], [], [], [], fun _ => 0⟩
    ⟨rfl, rfl, List.nodup_nil, List.nodup_nil, fun d => by simp⟩
    [DepOp.read 0, DepOp.read 0, DepOp.cleanup, DepOp.read 0]
  refine ⟨h.1 0, ?_⟩
  have h2 := dep_subscriber_at_most_once ⟨[0], [0], [], [], fun x => if x = 0 then 1 else 0⟩
    ⟨rfl, rfl, List.nodup_singleton 0, List.nodup_nil, fun d => by
      by_cases hd : d = 0 <;> simp [hd]⟩ []
  rw [h2.2 0]
  decide

/-- Claim C6 — a throwing getter: a user watcher's exception is caught and
reported (`handleError`), `get` returning the untouched local `value`
(JS `undefined`); a non-user watcher's exception propagates to the caller;
in every case the target-stack pop and `cleanupDeps` reconciliation run in
the `finally`, and `this.value` is never written by `get` itself. -/
theorem watcher_get_error_policy (s : GetState) (selfId : Nat) (touched : List Nat) :
    ((watcherGet s selfId touched none true).ret = some JSVal.undef ∧
     (watcherGet s selfId touched none true).state.errors = s.errors + 1) ∧
    ((watcherGet s selfId touched none false).ret = none ∧
     (watcherGet s selfId touched none false).state.errors = s.errors) ∧
    (∀ behavior user,
      (watcherGet s selfId touched behavior user).state.stack = s.stack ∧
      (watcherGet s selfId touched behavior user).state.w
        = cleanupDeps (touched.foldl addDep s.w) ∧
      (watcherGet s selfId touched behavior user).state.storedValue = s.storedValue) := by
  refine ⟨⟨rfl, rfl⟩, ⟨rfl, rfl⟩, fun behavior user => ?_⟩
  refine ⟨?_, watcherGet_wstate s selfId touched behavior user, ?_⟩
  · show (match behavior with
      | some v => _
      | none => _ : GetState × Option JSVal × Bool).1.stack.dropLast = s.stack
    cases behavior with
    | some v => simp
    | none => cases user <;> simp
  · cases behavior with
    | some v => rfl
    | none => cases user <;> rfl

/-- Claim C4 counterexample — `run()` compares with plain strict inequality
and has no NaN allowance: when the old and new values are both NaN (not an
object, not deep), the callback IS invoked, though the claim's condition
(NaN self-inequality treated as equal) says it must not be. -/
theorem watcher_run_nan_counterexample :
    (watcherRun ⟨true, false, JSVal.nan⟩ JSVal.nan).cb = some (JSVal.nan, JSVal.nan) ∧
    claimRunFires ⟨true, false, JSVal.nan⟩ JSVal.nan = false := by decide

/-- Claim C4 (amended) — for an active watcher, `run()` stores the new value
and invokes the callback with `(newValue, oldValue)` exactly when the new
value differs from the old under JS strict equality (so two NaN values DO
count as changed), or is an object, or the watcher is deep; otherwise state
and value are untouched and no callback fires. -/
theorem watcher_run_fires_iff (s : RunState) (value : JSVal) (ha : s.active = true) :
    (watcherRun s value).cb =
      (if !strictEq value s.value || isObject value || s.deep
        then some (value, s.value) else none) ∧
    (watcherRun s value).state =
      (if !strictEq value s.value || isObject value || s.deep
        then { s with value := value } else s) := by
  cases hcond : (!strictEq value s.value || isObject value || s.deep) <;>
    simp [watcherRun, ha, hcond]

/-- Witness for the amended C4: a changed primitive fires with (new, old);
an identical primitive does not fire. -/
theorem watcher_run_fires_iff_witness :
    (watcherRun ⟨true, false, JSVal.num 1⟩ (JSVal.num 2)).cb
      = some (JSVal.num 2, JSVal.num 1) ∧
    (watcherRun ⟨true, false, JSVal.num 1⟩ (JSVal.num 1)).cb = none := by
  have h1 := watcher_run_fires_iff ⟨true, false, JSVal.num 1⟩ (JSVal.num 2) rfl
  have h2 := watcher_run_fires_iff ⟨true, false, JSVal.num 1⟩ (JSVal.num 1) rfl
  exact ⟨h1.1.trans (by decide), h2.1.trans (by decide)⟩

/-- Claim C5 counterexample — a property whose original descriptor had a
getter but no setter: writing a genuinely different value (not NaN on
either side) is still a complete no-op, though the claim's "otherwise"
branch says it must store, observe and notify. -/
theorem reactive_setter_getter_only_counterexample :
    (reactiveSetter ⟨JSVal.num 1, true, false, false⟩ (JSVal.num 1) (JSVal.num 2)).notified
      = false ∧
    strictEq (JSVal.num 2) (JSVal.num 1) = false ∧
    (JSVal.num 2 : JSVal) ≠ JSVal.nan ∧ (JSVal.num 1 : JSVal) ≠ JSVal.nan ∧
    (reactiveSetter ⟨JSVal.num 1, true, false, false⟩ (JSVal.num 1) (JSVal.num 2)).state
      = ⟨JSVal.num 1, true, false, false⟩ := by decide

/-- Claim C5 (amended) — the reactive setter: a write whose value is
strictly identical to the current read value, or where both are NaN, is a
complete no-op (no store, no observe, no notify); otherwise, unless the
property had a getter but no setter (also a complete no-op), it stores the
new value (via the pre-defined setter when one exists, else into `val`),
invokes `observe` on the new value when the property is not shallow, and
calls `dep.notify()`. -/
theorem reactive_setter_spec (s : PropState) (getterVal newVal : JSVal) (value : JSVal)
    (hv : value = (if s.hasGetter then getterVal else s.val)) :
    (setterNoChange newVal value = true →
      reactiveSetter s getterVal newVal = ⟨s, false, false, false⟩) ∧
    (setterNoChange newVal value = false →
      s.hasGetter = true → s.hasSetter = false →
      reactiveSetter s getterVal newVal = ⟨s, false, false, false⟩) ∧
    (setterNoChange newVal value = false →
      ¬(s.hasGetter = true ∧ s.hasSetter = false) →
      (reactiveSetter s getterVal newVal).notified = true ∧
      (reactiveSetter s getterVal newVal).observeCalled = !s.shallow ∧
      (s.hasSetter = true →
        (reactiveSetter s getterVal newVal).calledSetter = true ∧
        (reactiveSetter s getterVal newVal).state = s) ∧
      (s.hasSetter = false →
        (reactiveSetter s getterVal newVal).state.val = newVal ∧
        (reactiveSetter s getterVal newVal).calledSetter = false)) := by
  subst hv
  refine ⟨fun hc => ?_, fun hc hg hset => ?_, fun hc hgs => ?_⟩
  · simp [reactiveSetter, hc]
  · simp [reactiveSetter, hc, hg, hset]
  · cases hget : s.hasGetter <;> cases hset : s.hasSetter <;> rw [hget] at hc <;>
      simp only [if_true, if_false, Bool.false_eq_true, Bool.true_eq_false, ite_true,
        ite_false] at hc
    · simp [reactiveSetter, hc, hget, hset]
    · simp [reactiveSetter, hc, hget, hset]
    · exact absurd ⟨hget, hset⟩ hgs
    · simp [reactiveSetter, hc, hget, hset]

/-- Witness for the amended C5: a plain data property (`obj = writeable
value 1`), written with 2 — stores, marks observe, notifies. -/
theorem reactive_setter_spec_witness :
    (reactiveSetter ⟨JSVal.num 1, false, false, false⟩ JSVal.undef (JSVal.num 2)).notified
      = true ∧
    (reactiveSetter ⟨JSVal.num 1, false, false, false⟩ JSVal.undef (JSVal.num 2)).state.val
      = JSVal.num 2 ∧
    (reactiveSetter ⟨JSVal.num 1, false, false, false⟩ JSVal.undef
      (JSVal.num 2)).observeCalled = true := by
  have h := reactive_setter_spec ⟨JSVal.num 1, false, false, false⟩ JSVal.undef
    (JSVal.num 2) (JSVal.num 1) (by decide)
  have h3 := h.2.2 (by decide) (by simp)
  exact ⟨h3.1, (h3.2.2.2 rfl).1, h3.2.1.trans (by decide)⟩

/-- Claim C9 — for a reactive property whose original descriptor had a
getter but no setter, every write through the reactive setter is a complete
no-op: nothing stored, nothing observed, no notification (the `dep.notify`
branch is unreachable). -/
theorem reactive_setter_getter_no_setter (s : PropState) (getterVal newVal : JSVal)
    (hg : s.hasGetter = true) (hset : s.hasSetter = false) :
    reactiveSetter s getterVal newVal = ⟨s, false, false, false⟩ := by
  cases hc : setterNoChange newVal (if s.hasGetter then getterVal else s.val) <;>
    simp [reactiveSetter, hc, hg, hset]

/-- Witness for C9 at a concrete getter-only property. -/
theorem reactive_setter_getter_no_setter_witness :
    reactiveSetter ⟨JSVal.num 3, true, false, false⟩ (JSVal.num 4) (JSVal.num 9)
      = ⟨⟨JSVal.num 3, true, false, false⟩, false, false, false⟩ :=
  reactive_setter_getter_no_setter ⟨JSVal.num 3, true, false, false⟩ (JSVal.num 4)
    (JSVal.num 9) rfl rfl

theorem notify_fold_invocations (effect : Nat → List Nat → List Nat) :
    ∀ (l cur acc : List Nat),
      (l.foldl (fun a w => (effect w a.1, a.2 ++ [w])) (cur, acc)).2 = acc ++ l := by
  intro l
  induction l with
  | nil =>
    intro cur acc
    simp
  | cons x t ih =>
    intro cur acc
    simp only [List.foldl_cons]
    rw [ih]
    simp

/-- Claim C8 counterexample — in a production build (`dev = false`) with
`config.async = false`, `notify()` does NOT sort the snapshot: subscribers
`[2, 1]` are updated in stored order, not ascending id order, though the
claim says a non-batched configuration always sorts. -/
theorem dep_notify_sort_counterexample :
    (notifyRun false false [2, 1] (fun _ cur => cur)).2 = [2, 1] ∧
    List.insertionSort (· ≤ ·) [2, 1] = [1, 2] ∧
    ([2, 1] : List Nat) ≠ [1, 2] := by decide

/-- Claim C8 (amended) — `notify()` invokes `update()` on exactly a
pre-iteration snapshot of the subscriber list, so mutations performed by
in-flight updates are never observed by that notification; and only in a
non-production build with `config.async = false` is the snapshot
additionally sorted ascending by watcher id (a stable sort, a permutation
of the subscriber list). -/
theorem dep_notify_snapshot (dev async : Bool) (subs : List Nat)
    (effect : Nat → List Nat → List Nat) :
    (notifyRun dev async subs effect).2 = notifySnapshot dev async subs ∧
    (dev = true → async = false →
      notifySnapshot dev async subs = List.insertionSort (· ≤ ·) subs ∧
      List.Sorted (· ≤ ·) (notifySnapshot dev async subs) ∧
      List.Perm (notifySnapshot dev async subs) subs) ∧
    ((dev = false ∨ async = true) → notifySnapshot dev async subs = subs) := by
  refine ⟨?_, fun hd ha => ?_, fun h => ?_⟩
  · unfold notifyRun
    rw [notify_fold_invocations]
    simp
  · subst hd
    subst ha
    have he : notifySnapshot true false subs = List.insertionSort (· ≤ ·) subs := by
      simp [notifySnapshot]
    exact ⟨he, he ▸ List.sorted_insertionSort _ subs, he ▸ List.perm_insertionSort _ subs⟩
  · rcases h with h | h <;> subst h <;> simp [notifySnapshot]

/-- Witness for the amended C8: dev non-batched sorts; production does not. -/
theorem dep_notify_snapshot_witness :
    (notifyRun true false [3, 1, 2] (fun _ cur => cur)).2 = [1, 2, 3] ∧
    (notifyRun false true [3, 1, 2] (fun w cur => w :: cur)).2 = [3, 1, 2] := by
  have h1 := dep_notify_snapshot true false [3, 1, 2] (fun _ cur => cur)
  have h2 := dep_notify_snapshot false true [3, 1, 2] (fun w cur => w :: cur)
  exact ⟨h1.1.trans ((h1.2.1 rfl rfl).1.trans (by decide)),
    h2.1.trans (h2.2.2 (Or.inr rfl))⟩

/-- Claim C10 — `del` on a non-array target: when the key is not an own
property it is a complete no-op (nothing deleted, fields unchanged, no
notification); and a notification happens only when an own property was
actually deleted from an observed target. -/
theorem del_notify_only_on_delete (t : DelTarget) (key : String) :
    (hasOwn t key = false → del t key = ⟨t.fields, false, false⟩) ∧
    ((del t key).notified = true →
      hasOwn t key = true ∧ t.hasOb = true ∧ (del t key).deleted = true ∧
      (del t key).fields = t.fields.filter (fun p => !(p.1 == key))) := by
  cases hv : t.isVue <;> cases h3 : t.hasOb <;> cases h2 : hasOwn t key <;>
    by_cases hm : t.vmCount = 0 <;>
      simp [del, hv, h3, h2, hm]

/-- Witness for C10: deleting a missing key "b" from an observed object with
only key "a" changes nothing and does not notify. -/
theorem del_notify_only_on_delete_witness :
    del ⟨[("a", JSVal.num 1)], false, true, 0⟩ "b"
      = ⟨[("a", JSVal.num 1)], false, false⟩ :=
  (del_notify_only_on_delete ⟨[("a", JSVal.num 1)], false, true, 0⟩ "b").1 (by decide)

theorem queueWatcher_queue_midflush (s : Sched) (id : Nat)
    (hpend : id ∉ s.has) (hfl : s.flushing = true) :
    (queueWatcher s id).queue
      = s.queue.insertIdx (splicePos s.queue s.index id s.queue.length) id := by
  unfold queueWatcher
  rw [if_neg hpend]
  by_cases hw : s.waiting = false <;> simp [hfl, hw]

/-- Claim C3 counterexample — at the reachable mid-flush state with queue
`[2, 10]`, cursor at position 1 (watcher 10 running) and watcher 5 getting
enqueued: the code's scan stops at the cursor and splices at position 2,
producing `[2, 10, 5]`; the claim's rule ("scan backward to the first
position whose id is ≤ the new watcher's id", here position 0) would
produce `[2, 5, 10]` — and the code's result also refutes the claimed
ascending-id execution order, since 5 runs after 10. -/
theorem queueWatcher_scan_counterexample :
    (queueWatcher ⟨[2, 10], [], fun _ => 0, 1, true, true, false⟩ 5).queue
      = [2, 10, 5] ∧
    List.insertIdx (claimSplicePos [2, 10] 5 2) 5 [2, 10] = [2, 5, 10] ∧
    ([2, 10, 5] : List Nat) ≠ [2, 5, 10] := by decide

/-- Claim C3 (amended) — a watcher enqueued mid-flush whose id is not
pending is spliced at the position found by scanning backward from the end
to the first position that has id ≤ the new id OR is the flush-cursor
position, whichever is hit first: the insertion lands strictly past the
cursor (so the new watcher still runs in this flush), every element it is
inserted before has a strictly greater id, the stop-element (when the scan
stopped above the cursor) has id ≤ the new id, and the not-yet-run suffix
of the queue stays ascending by id, so pending units still execute in
ascending id order. -/
theorem queueWatcher_midflush (s : Sched) (id : Nat)
    (hpend : id ∉ s.has) (hfl : s.flushing = true) (hidx : s.index < s.queue.length) :
    (queueWatcher s id).queue
      = s.queue.insertIdx (splicePos s.queue s.index id s.queue.length) id ∧
    s.index + 1 ≤ splicePos s.queue s.index id s.queue.length ∧
    splicePos s.queue s.index id s.queue.length ≤ s.queue.length ∧
    (∀ j, splicePos s.queue s.index id s.queue.length ≤ j → j < s.queue.length →
      id < s.queue.getD j 0) ∧
    (s.index + 1 < splicePos s.queue s.index id s.queue.length →
      s.queue.getD (splicePos s.queue s.index id s.queue.length - 1) 0 ≤ id) ∧
    (SortedFrom s.queue (s.index + 1) →
      SortedFrom ((queueWatcher s id).queue) (s.index + 1)) := by
  have hq := queueWatcher_queue_midflush s id hpend hfl
  have hge := splicePos_ge s.queue s.index id s.queue.length
  have hmin : min s.queue.length (s.index + 1) = s.index + 1 :=
    Nat.min_eq_right (by omega)
  refine ⟨hq, by omega, splicePos_le s.queue s.index id s.queue.length, ?_, ?_, ?_⟩
  · exact fun j hj hjl => splicePos_gt_after s.queue s.index id s.queue.length j hj hjl
  · exact fun h => splicePos_stop_le s.queue s.index id s.queue.length h
  · intro hs
    rw [hq]
    exact insert_midflush_sorted s.queue s.index id hidx hs

/-- Witness for the amended C3: watcher 5 enqueued while the cursor is on
position 0 of `[2, 10, 20]` lands at position 1, keeping the pending
suffix sorted. -/
theorem queueWatcher_midflush_witness :
    (queueWatcher ⟨[2, 10, 20], [], fun _ => 0, 0, true, true, false⟩ 5).queue
      = [2, 5, 10, 20] := by
  have h := queueWatcher_midflush ⟨[2, 10, 20], [], fun _ => 0, 0, true, true, false⟩ 5
    (by decide) rfl (by decide)
  exact h.1.trans (by decide)

theorem flushLoop_succ (dev : Bool) (fuel : Nat) (tape : List (List Nat)) (s : Sched) :
    flushLoop dev (fuel + 1) tape s =
      if s.index < s.queue.length then
        if (flushIter dev (tape.headD []) s).2 then (flushIter dev (tape.headD []) s).1
        else flushLoop dev fuel tape.tail
          { (flushIter dev (tape.headD []) s).1 with
            index := (flushIter dev (tape.headD []) s).1.index + 1 }
      else s := rfl

theorem queueWatcher_index (s : Sched) (id : Nat) :
    (queueWatcher s id).index = s.index := by
  unfold queueWatcher
  by_cases h : id ∈ s.has
  · rw [if_pos h]
  · rw [if_neg h]
    by_cases hf : s.flushing = false <;> by_cases hw : s.waiting = false <;>
      simp [hf, hw]

theorem foldl_queueWatcher_index (l : List Nat) (s : Sched) :
    (l.foldl queueWatcher s).index = s.index := by
  induction l generalizing s with
  | nil => rfl
  | cons a t ih => rw [List.foldl_cons, ih, queueWatcher_index]

/-- Claim C7 — the dev-mode runaway-update breaker: when, right after a
watcher's `run()`, its pending flag is found re-set and its circular-run
counter (incremented now) exceeds `MAX_UPDATE_COUNT = 100`, the flush loop
returns immediately (`break`) with the state produced so far — `warned`
set, cursor not advanced, nothing undone, nothing thrown; when the counter
stays at or below the threshold (or the flag was not re-set) the loop
continues with the next iteration; and the breaker fires exactly under
that re-set-and-over-threshold condition. -/
theorem flush_circuit_breaker (fuel : Nat) (tape : List (List Nat)) (s : Sched)
    (hidx : s.index < s.queue.length) :
    ((flushIter true (tape.headD []) s).2 = true →
      flushLoop true (fuel + 1) tape s = (flushIter true (tape.headD []) s).1 ∧
      (flushIter true (tape.headD []) s).1.warned = true ∧
      (flushIter true (tape.headD []) s).1.index = s.index) ∧
    ((flushIter true (tape.headD []) s).2 = false →
      flushLoop true (fuel + 1) tape s =
        flushLoop true fuel tape.tail
          { (flushIter true (tape.headD []) s).1 with
            index := (flushIter true (tape.headD []) s).1.index + 1 }) ∧
    ((flushIter true (tape.headD []) s).2 = true ↔
      flushIterTarget s ∈ (flushIterRan (tape.headD []) s).has ∧
      (flushIterRan (tape.headD []) s).circular (flushIterTarget s) + 1
        > MAX_UPDATE_COUNT) := by
  have hiff : (flushIter true (tape.headD []) s).2 = true ↔
      flushIterTarget s ∈ (flushIterRan (tape.headD []) s).has ∧
      (flushIterRan (tape.headD []) s).circular (flushIterTarget s) + 1
        > MAX_UPDATE_COUNT := by
    unfold flushIter
    by_cases hmem : flushIterTarget s ∈ (flushIterRan (tape.headD []) s).has
    · by_cases hcnt : (flushIterRan (tape.headD []) s).circular (flushIterTarget s) + 1
          > MAX_UPDATE_COUNT
      · rw [if_pos ⟨rfl, hmem⟩, if_pos hcnt]
        exact iff_of_true rfl ⟨hmem, hcnt⟩
      · rw [if_pos ⟨rfl, hmem⟩, if_neg hcnt]
        exact iff_of_false Bool.false_ne_true (fun h => hcnt h.2)
    · rw [if_neg (fun h => hmem h.2)]
      exact iff_of_false Bool.false_ne_true (fun h => hmem h.1)
  refine ⟨fun hbrk => ?_, fun hbrk => ?_, hiff⟩
  · have hridx : (flushIterRan (tape.headD []) s).index = s.index :=
      foldl_queueWatcher_index (tape.headD []) _
    have hwarned : (flushIter true (tape.headD []) s).1.warned = true ∧
        (flushIter true (tape.headD []) s).1.index = s.index := by
      obtain ⟨hmem, hcnt⟩ := hiff.mp hbrk
      unfold flushIter
      rw [if_pos ⟨rfl, hmem⟩, if_pos hcnt]
      exact ⟨rfl, hridx⟩
    refine ⟨?_, hwarned.1, hwarned.2⟩
    rw [flushLoop_succ, if_pos hidx, if_pos hbrk]
  · rw [flushLoop_succ, if_pos hidx, if_neg (by rw [hbrk]; exact Bool.false_ne_true)]

/-- Witness for C7: a single watcher (id 1) whose run keeps re-enqueuing
itself and whose circular counter already stands at 100 — the next re-set
trips the breaker and the loop aborts with the diagnostic flag set. -/
theorem flush_circuit_breaker_witness :
    (flushLoop true 7 [[1]]
      ⟨[1, 1], [], fun x => if x = 1 then 100 else 0, 0, true, true, false⟩).warned
        = true := by
  have h := (flush_circuit_breaker 6 [[1]]
    ⟨[1, 1], [], fun x => if x = 1 then 100 else 0, 0, true, true, false⟩
    (by decide)).1 (by decide)
  rw [h.1]
  exact h.2.1

end Vue
